import Mathlib

/-!
Verification development for the parallel-tempering MCMC core
(src/wasm/parallel_tempering_mcmc.cpp).

Modelling conventions:
* C++ `double` values are modelled as real numbers (`ℝ`).
* A `double` quantity that the program can drive to `-INFINITY` (log-densities,
  log-posteriors) is modelled as `Option ℝ`, with `none` standing for a
  non-finite value (`-INFINITY`, and for the one reachable `NaN` noted at the
  temperature ladder).  The program only ever combines such values by addition
  and by order comparisons guarded as in the source, so this encoding is exact
  on every code path exercised below.
* Loops are modelled by structural recursion; the two boundary-reflection
  `while` loops of `ProposalDistribution::propose`, which do not terminate on
  some inputs, are modelled with an explicit fuel argument, `none` meaning the
  loop has not exited within the given fuel.
-/

namespace SeroCOP

open Real

/-- Model parameters (struct `Params`): floor, ceiling, ec50, slope. -/
structure Params where
  floor : ℝ
  ceiling : ℝ
  ec50 : ℝ
  slope : ℝ

/-- Default-constructed `Params()` is `(0.5, 0.5, 0.0, 1.0)` in the source. -/
instance : Inhabited Params := ⟨⟨0.5, 0.5, 0, 1⟩⟩

/-- Prior hyperparameters (struct `Priors`). -/
structure Priors where
  floor_alpha : ℝ
  floor_beta : ℝ
  ceiling_alpha : ℝ
  ceiling_beta : ℝ
  ec50_mean : ℝ
  ec50_sd : ℝ
  slope_mean : ℝ
  slope_sd : ℝ

/-- Observation dataset (struct `Data`): `N` is `titre.size()` as set by the
two-argument constructor. -/
structure Data where
  titre : List ℝ
  infected : List ℤ

/-- Field `Data::N`, always `titre.size()` for constructor-built data. -/
def Data.N (d : Data) : ℕ := d.titre.length

/-- Addition on `Option ℝ` where `none` is `-INFINITY`: the source accumulates
log-densities with `+=` and `-INFINITY` absorbs finite addends. -/
def oadd : Option ℝ → Option ℝ → Option ℝ
  | some a, some b => some (a + b)
  | _, _ => none

/-- Function `sigmoid`. -/
noncomputable def sigmoid (x : ℝ) : ℝ := 1 / (1 + Real.exp (-x))

/-- Function `log_beta_pdf`: `-INFINITY` outside `(0,1)`, else the
unnormalized Beta log-density. -/
noncomputable def log_beta_pdf (x alpha beta : ℝ) : Option ℝ :=
  if x ≤ 0 ∨ 1 ≤ x then none
  else some ((alpha - 1) * Real.log x + (beta - 1) * Real.log (1 - x))

/-- Function `log_normal_pdf` (always finite for the in-scope case `sd > 0`). -/
noncomputable def log_normal_pdf (x mean sd : ℝ) : ℝ :=
  -(1/2) * ((x - mean) / sd) ^ 2 - Real.log sd - (1/2) * Real.log (2 * Real.pi)

/-- Complementary error function, as used by the source through `std::erfc`
(external library function, modelled by its mathematical definition). -/
noncomputable def erfc (x : ℝ) : ℝ :=
  (2 / Real.sqrt Real.pi) * ∫ t in Set.Ioi x, Real.exp (-(t ^ 2))

/-- Function `log_truncated_normal_pdf`: `-INFINITY` for `x ≤ 0`. -/
noncomputable def log_truncated_normal_pdf (x mean sd : ℝ) : Option ℝ :=
  if x ≤ 0 then none
  else some (-(1/2) * ((x - mean) / sd) ^ 2 - Real.log sd
      - (1/2) * Real.log (2 * Real.pi)
      - Real.log (1 - (1/2) * erfc (-mean / (sd * Real.sqrt 2))))

/-- Function `log_bernoulli_pmf`: `-INFINITY` for `p` outside `(0,1)`. -/
noncomputable def log_bernoulli_pmf (y : ℤ) (p : ℝ) : Option ℝ :=
  if p ≤ 0 ∨ 1 ≤ p then none
  else some (if y = 1 then Real.log p else Real.log (1 - p))

/-- Per-observation infection probability of the 4PL model (inlined expression
in `log_likelihood`). -/
noncomputable def prob_infection (p : Params) (titre : ℝ) : ℝ :=
  p.ceiling * (sigmoid (-p.slope * (titre - p.ec50)) * (1 - p.floor) + p.floor)

/-- Function `log_prior`: sum of the four prior log-densities. -/
noncomputable def log_prior (p : Params) (pr : Priors) : Option ℝ :=
  oadd (oadd (oadd (log_beta_pdf p.floor pr.floor_alpha pr.floor_beta)
      (log_beta_pdf p.ceiling pr.ceiling_alpha pr.ceiling_beta))
      (some (log_normal_pdf p.ec50 pr.ec50_mean pr.ec50_sd)))
    (log_truncated_normal_pdf p.slope pr.slope_mean pr.slope_sd)

/-- Function `log_likelihood`: the loop `for i in [0, N)` accumulating the
Bernoulli log-pmf, returning `-INFINITY` as soon as the running sum is
non-finite. -/
noncomputable def log_likelihood (p : Params) (d : Data) : Option ℝ :=
  (List.range d.N).foldl
    (fun acc i =>
      oadd acc (log_bernoulli_pmf (d.infected.getD i 0)
        (prob_infection p (d.titre.getD i 0))))
    (some 0)

/-- Function `log_posterior_tempered`: `-INFINITY` if the prior or the
likelihood is non-finite, else `lp + ll / T`. -/
noncomputable def log_posterior_tempered (p : Params) (d : Data) (pr : Priors)
    (temperature : ℝ) : Option ℝ :=
  match log_prior p pr with
  | none => none
  | some lp =>
    match log_likelihood p d with
    | none => none
    | some ll => some (lp + ll / temperature)

/-- One pass through the body of the floor/ceiling reflection loop in
`ProposalDistribution::propose`: first `if (x <= 0) x = -x;`, then on the
updated value `if (x >= 1) x = 2 - x;`. -/
noncomputable def reflectStep01 (x : ℝ) : ℝ :=
  let y := if x ≤ 0 then -x else x
  if 1 ≤ y then 2 - y else y

/-- The floor/ceiling reflection loop
`while (x <= 0.0 || x >= 1.0) { ... }` with explicit fuel; `none` means the
loop has not exited within `fuel` iterations. -/
noncomputable def reflect01Fuel : ℕ → ℝ → Option ℝ
  | 0, x => if x ≤ 0 ∨ 1 ≤ x then none else some x
  | fuel + 1, x => if x ≤ 0 ∨ 1 ≤ x then reflect01Fuel fuel (reflectStep01 x) else some x

/-- The slope reflection loop `while (x <= 0.0) { x = -x; }` with fuel. -/
noncomputable def reflectPosFuel : ℕ → ℝ → Option ℝ
  | 0, x => if x ≤ 0 then none else some x
  | fuel + 1, x => if x ≤ 0 then reflectPosFuel fuel (-x) else some x

/-- Predicate for a real that is not an integer (the reflection loops
terminate exactly off the integer lattice). -/
def NotIntegral (x : ℝ) : Prop := ∀ m : ℤ, x ≠ (m : ℝ)

/-! ## Temperature ladder -/

/-- Exponent `static_cast<double>(i) / (num_chains - 1)` of the ladder.  The
only reachable zero denominator is `K = 1` (then `i = 0`), where IEEE
`0.0 / 0.0` is `NaN`; this non-finite value is modelled as `none` and
propagates through `pow`. -/
noncomputable def ladderExponent (i K : ℕ) : Option ℝ :=
  if (K : ℤ) - 1 = 0 then none else some ((i : ℝ) / ((K : ℝ) - 1))

/-- Temperature ladder built in the `ParallelTemperingMCMC` constructor:
`temperatures[i] = pow(10.0, i / (num_chains - 1))`. -/
noncomputable def temperaturesList (K : ℕ) : List (Option ℝ) :=
  (List.range K).map (fun i => (ladderExponent i K).map (fun e => (10 : ℝ) ^ e))

/-- Per-observation Bernoulli log-pmf terms, in observation order (spec-side
view of the likelihood). -/
noncomputable def bernoulliTerms (p : Params) (d : Data) : List (Option ℝ) :=
  (List.range d.N).map
    (fun i => log_bernoulli_pmf (d.infected.getD i 0) (prob_infection p (d.titre.getD i 0)))

/-- Specification-side likelihood (spec §4.1): the sum of the per-observation
Bernoulli log-pmfs, and `-INFINITY` when any term is non-finite. -/
noncomputable def log_likelihood_specification (p : Params) (d : Data) : Option ℝ :=
  if none ∈ bernoulliTerms p d then none
  else some ((bernoulliTerms p d).map (fun t => t.getD 0)).sum

/-! ## Convergence diagnostics -/

/-- Per-parameter split R-hat, lambda `compute_rhat_param` of
`ParallelTemperingMCMC::compute_rhat` (with its inner `compute_var`):
each half's sample variance is divided by that half's own `size() - 1`. -/
noncomputable def rhat_param_code (c1 c2 : List ℝ) : ℝ :=
  let mean1 := c1.sum / (c1.length : ℝ)
  let mean2 := c2.sum / (c2.length : ℝ)
  let overall_mean := (mean1 + mean2) / 2
  let var1 := (c1.map (fun x => (x - mean1) * (x - mean1))).sum / ((c1.length - 1 : ℕ) : ℝ)
  let var2 := (c2.map (fun x => (x - mean2) * (x - mean2))).sum / ((c2.length - 1 : ℕ) : ℝ)
  let W := (var1 + var2) / 2
  let B := (c1.length : ℝ) * ((mean1 - overall_mean) * (mean1 - overall_mean)
      + (mean2 - overall_mean) * (mean2 - overall_mean))
  let var_plus := (((c1.length : ℝ) - 1) / (c1.length : ℝ)) * W
      + (1 / (c1.length : ℝ)) * B
  Real.sqrt (var_plus / W)

/-- Function `ParallelTemperingMCMC::compute_rhat`.  The first half is the
index loop `[warmup, warmup + half)`, the second `[warmup + half, size)`;
`n` is the `int` value `samples.size() - warmup`. -/
noncomputable def compute_rhat (samples : List Params) (warmup : ℕ) : List ℝ :=
  let n : ℤ := (samples.length : ℤ) - (warmup : ℤ)
  if n < 100 then [1, 1, 1, 1]
  else
    let half : ℕ := (n / 2).toNat
    let c1 := (List.range half).map (fun k => samples.getD (warmup + k) default)
    let c2 := (List.range (samples.length - (warmup + half))).map
        (fun k => samples.getD (warmup + half + k) default)
    [rhat_param_code (c1.map Params.floor) (c2.map Params.floor),
     rhat_param_code (c1.map Params.ceiling) (c2.map Params.ceiling),
     rhat_param_code (c1.map Params.ec50) (c2.map Params.ec50),
     rhat_param_code (c1.map Params.slope) (c2.map Params.slope)]

/-- Autocorrelation accumulation loop of `compute_ess_param`: lags from `lag`
while `lag < bound`, pushing `rho` and stopping after the first negative
entry; `fuel` bounds the remaining iterations (the loop body runs at most
`bound` times, so `fuel = bound` is exact). -/
noncomputable def essAcf (x : List ℝ) (mean var : ℝ) (bound : ℕ) :
    ℕ → ℕ → List ℝ
  | _, 0 => []
  | lag, fuel + 1 =>
    if lag < bound then
      let rho := ((x.drop lag).zip x |>.map (fun q => (q.1 - mean) * (q.2 - mean))).sum
          / (((x.length - lag : ℕ) : ℝ) * var)
      rho :: (if rho < 0 then [] else essAcf x mean var bound (lag + 1) fuel)
    else []

/-- Per-parameter effective sample size, lambda `compute_ess_param` of
`ParallelTemperingMCMC::compute_ess`. -/
noncomputable def ess_param_code (x : List ℝ) : ℝ :=
  let mean := x.sum / (x.length : ℝ)
  let var := (x.map (fun v => (v - mean) * (v - mean))).sum / ((x.length - 1 : ℕ) : ℝ)
  let acf := essAcf x mean var (min 100 (x.length / 2)) 1 (min 100 (x.length / 2))
  (x.length : ℝ) / (1 + 2 * acf.sum)

/-- Function `ParallelTemperingMCMC::compute_ess`. -/
noncomputable def compute_ess (samples : List Params) (warmup : ℕ) : List ℝ :=
  let n : ℤ := (samples.length : ℤ) - (warmup : ℤ)
  if n < 100 then [0, 0, 0, 0]
  else
    let v := (List.range (samples.length - warmup)).map
        (fun k => samples.getD (warmup + k) default)
    [ess_param_code (v.map Params.floor),
     ess_param_code (v.map Params.ceiling),
     ess_param_code (v.map Params.ec50),
     ess_param_code (v.map Params.slope)]

/-- Specification-side per-parameter split R-hat exactly as claim C7 states
it (spec §4.5): both halves' sample variances divided by `h - 1`. -/
noncomputable def rhat_param_claimed (h : ℕ) (c1 c2 : List ℝ) : ℝ :=
  let mean1 := c1.sum / (c1.length : ℝ)
  let mean2 := c2.sum / (c2.length : ℝ)
  let mu := (mean1 + mean2) / 2
  let v1 := (c1.map (fun x => (x - mean1) ^ 2)).sum / ((h : ℝ) - 1)
  let v2 := (c2.map (fun x => (x - mean2) ^ 2)).sum / ((h : ℝ) - 1)
  let W := (v1 + v2) / 2
  let B := (h : ℝ) * ((mean1 - mu) ^ 2 + (mean2 - mu) ^ 2)
  let Vhat := (((h : ℝ) - 1) / (h : ℝ)) * W + (1 / (h : ℝ)) * B
  Real.sqrt (Vhat / W)

/-- Specification-side per-parameter split R-hat, amended: each half's sample
variance is divided by that half's own length minus one (`h - 1` for the
first half, `n - h - 1` for the second). -/
noncomputable def rhat_param_spec (h : ℕ) (c1 c2 : List ℝ) : ℝ :=
  let mean1 := c1.sum / (c1.length : ℝ)
  let mean2 := c2.sum / (c2.length : ℝ)
  let mu := (mean1 + mean2) / 2
  let v1 := (c1.map (fun x => (x - mean1) ^ 2)).sum / ((c1.length : ℝ) - 1)
  let v2 := (c2.map (fun x => (x - mean2) ^ 2)).sum / ((c2.length : ℝ) - 1)
  let W := (v1 + v2) / 2
  let B := (h : ℝ) * ((mean1 - mu) ^ 2 + (mean2 - mu) ^ 2)
  let Vhat := (((h : ℝ) - 1) / (h : ℝ)) * W + (1 / (h : ℝ)) * B
  Real.sqrt (Vhat / W)

/-- Split R-hat as claim C7 states it: drop the warmup prefix, split into the
halves `x[0:h)` and `x[h:n)` with `h = n / 2`, and apply §4.5 with divisor
`h - 1` for both halves. -/
noncomputable def compute_rhat_claimed (trace : List Params) (w : ℕ) : List ℝ :=
  let x := trace.drop w
  if x.length < 100 then [1, 1, 1, 1]
  else
    let h := x.length / 2
    [rhat_param_claimed h ((x.take h).map Params.floor) ((x.drop h).map Params.floor),
     rhat_param_claimed h ((x.take h).map Params.ceiling) ((x.drop h).map Params.ceiling),
     rhat_param_claimed h ((x.take h).map Params.ec50) ((x.drop h).map Params.ec50),
     rhat_param_claimed h ((x.take h).map Params.slope) ((x.drop h).map Params.slope)]

/-- Split R-hat with the amended variance divisors (each half's own length
minus one); otherwise exactly the claimed §4.5 computation. -/
noncomputable def compute_rhat_spec (trace : List Params) (w : ℕ) : List ℝ :=
  let x := trace.drop w
  if x.length < 100 then [1, 1, 1, 1]
  else
    let h := x.length / 2
    [rhat_param_spec h ((x.take h).map Params.floor) ((x.drop h).map Params.floor),
     rhat_param_spec h ((x.take h).map Params.ceiling) ((x.drop h).map Params.ceiling),
     rhat_param_spec h ((x.take h).map Params.ec50) ((x.drop h).map Params.ec50),
     rhat_param_spec h ((x.take h).map Params.slope) ((x.drop h).map Params.slope)]

/-- Concrete all-zero parameter point used in the odd-length trace. -/
def Pz : Params := ⟨0, 0, 0, 0⟩

/-- Concrete parameter point whose floor coordinate is 1. -/
def Po : Params := ⟨1, 0, 0, 0⟩

/-- A cold-chain trace of odd post-warmup length 101: one hundred copies of
`Pz` followed by `Po`. -/
def rhatTrace : List Params := List.replicate 100 Pz ++ [Po]

/-! ## Random source -/

/-- Modelled from the spec: the random source (`std::mt19937` plus the
standard distribution adaptors, an external library component, spec §2
"Random source") is modelled as a deterministic seed-indexed stream with a
draw counter.  The development relies only on its determinism given the seed
and on the output ranges of the distribution adaptors. -/
def RngState : Type := ℕ × ℕ

/-- Function `set_random_seed` / construction of the seeded generator. -/
def mkRng (seed : ℕ) : RngState := (seed, 0)

/-- Advance the stream by one consumed draw. -/
def nextRng (r : RngState) : RngState := (r.1, r.2 + 1)

/-- Raw hash behind the modelled stream (any fixed function works: no claim
depends on the distribution of values, only on ranges and determinism). -/
def hashVal (r : RngState) : ℕ := (r.1 * 1000003 + r.2 * 7919 + 345) % 1000

/-- One draw of `std::normal_distribution(0,1)` (range irrelevant). -/
noncomputable def normalVal (r : RngState) : ℝ := ((hashVal r : ℝ) - 500) / 250

/-- One draw of `std::uniform_real_distribution(0,1)`, strictly inside
`(0,1)`. -/
noncomputable def uniformVal (r : RngState) : ℝ := ((hashVal r : ℝ) + 1) / 1002

/-- One draw of `std::uniform_real_distribution(lo, hi)`. -/
noncomputable def uniformRange (lo hi : ℝ) (r : RngState) : ℝ :=
  lo + (hi - lo) * uniformVal r

/-- One draw of `std::uniform_int_distribution(0, hi)`. -/
def intRange (hi : ℕ) (r : RngState) : ℕ := hashVal r % (hi + 1)

/-! ## Proposal kernel -/

/-- State of `ProposalDistribution`: the four per-parameter step sizes. -/
structure PropState where
  s0 : ℝ
  s1 : ℝ
  s2 : ℝ
  s3 : ℝ

/-- Step sizes are initialized to `0.1`. -/
def initProp : PropState := ⟨0.1, 0.1, 0.1, 0.1⟩

/-- `ProposalDistribution::adapt`: every 50 iterations scale all step sizes
by 1.01 if the acceptance rate exceeds 0.234 else by 0.99, clamped to
`[0.001, 1.0]`. -/
noncomputable def adapt (ps : PropState) (iteration : ℕ) (acceptance_rate : ℝ) :
    PropState :=
  let scale : ℝ := if 0.234 < acceptance_rate then 1.01 else 0.99
  if iteration % 50 = 0 then
    ⟨max 0.001 (min (ps.s0 * scale) 1), max 0.001 (min (ps.s1 * scale) 1),
     max 0.001 (min (ps.s2 * scale) 1), max 0.001 (min (ps.s3 * scale) 1)⟩
  else ps

/-- The floor/ceiling reflection loop with a fuel that theorem
`reflect01Fuel_terminates` proves sufficient off the integer lattice; `none`
exactly when the source loop diverges. -/
noncomputable def reflect01 (x : ℝ) : Option ℝ := reflect01Fuel (⌈|x|⌉₊ + 1) x

/-- The slope reflection loop (fuel 1 is exact: at most one reflection can
occur, and the loop diverges only at `x = 0`). -/
noncomputable def reflectPos (x : ℝ) : Option ℝ := reflectPosFuel 1 x

/-- `ProposalDistribution::propose`: perturb each coordinate with a Gaussian
step (draw order floor, ceiling, ec50, slope), reflecting floor/ceiling into
`(0,1)` and slope into `(0,∞)`; `none` models a diverging reflection loop. -/
noncomputable def propose (ps : PropState) (cur : Params) (r : RngState) :
    Option (Params × RngState) :=
  let n0 := normalVal r
  let r0 := nextRng r
  let n1 := normalVal r0
  let r1 := nextRng r0
  let n2 := normalVal r1
  let r2 := nextRng r1
  let n3 := normalVal r2
  let r3 := nextRng r2
  match reflect01 (cur.floor + ps.s0 * n0) with
  | none => none
  | some f =>
    match reflect01 (cur.ceiling + ps.s1 * n1) with
    | none => none
    | some c =>
      match reflectPos (cur.slope + ps.s3 * n3) with
      | none => none
      | some s => some (⟨f, c, cur.ec50 + ps.s2 * n2, s⟩, r3)

/-! ## Single-temperature chain -/

/-- State of `MCMCChain`.  The temperature is `Option ℝ` because the `K = 1`
ladder entry is `NaN` (see `ladderExponent`); `none` marks that non-finite
temperature. -/
structure MCMCChainState where
  current : Params
  current_log_posterior : Option ℝ
  temperature : Option ℝ
  prop : PropState
  accepted : ℕ
  total : ℕ
  samples : List Params

instance : Inhabited MCMCChainState :=
  ⟨⟨default, none, none, initProp, 0, 0, []⟩⟩

/-- Tempered log-posterior at a chain's stored temperature; a `NaN`
temperature makes every evaluation non-finite. -/
noncomputable def chainLPT (p : Params) (d : Data) (pr : Priors) :
    Option ℝ → Option ℝ
  | none => none
  | some t => log_posterior_tempered p d pr t

/-- `MCMCChain` constructor: store the initial point, cache its tempered
log-posterior, zero the counters, start with an empty trace. -/
noncomputable def mkChain (temp : Option ℝ) (init : Params) (d : Data)
    (pr : Priors) : MCMCChainState :=
  ⟨init, chainLPT init d pr temp, temp, initProp, 0, 0, []⟩

/-- Metropolis acceptance `log(uniform) < proposed - current` on the
`Option ℝ` encoding: a non-finite proposed log-posterior is never accepted
(`log U < -INFINITY` and `log U < NaN` are both false), and a finite proposed
value beats a `-INFINITY` current one (`log U < +INFINITY`). -/
def acceptMH (u : ℝ) : Option ℝ → Option ℝ → Prop
  | none, _ => False
  | some _, none => True
  | some p, some c => Real.log u < p - c

/-- `MCMCChain::set_current`: replace the state and recompute the cached
log-posterior at the chain's own temperature. -/
noncomputable def setCurrent (c : MCMCChainState) (p : Params) (d : Data)
    (pr : Priors) : MCMCChainState :=
  { c with current := p, current_log_posterior := chainLPT p d pr c.temperature }

open Classical in
/-- `MCMCChain::step`: propose, evaluate, Metropolis-accept, append the
(possibly unchanged) current point to the trace, and adapt every 50 steps
using the post-update acceptance rate. -/
noncomputable def stepChain (d : Data) (pr : Priors) (c : MCMCChainState)
    (r : RngState) : Option (MCMCChainState × RngState) :=
  match propose c.prop c.current r with
  | none => none
  | some (proposed, r1) =>
    let proposed_lp := chainLPT proposed d pr c.temperature
    let u := uniformVal r1
    let r2 := nextRng r1
    let total := c.total + 1
    if acceptMH u proposed_lp c.current_log_posterior then
      let accepted := c.accepted + 1
      let prop := if total % 50 = 0 then
          adapt c.prop total ((accepted : ℝ) / (total : ℝ)) else c.prop
      some (⟨proposed, proposed_lp, c.temperature, prop, accepted, total,
        c.samples ++ [proposed]⟩, r2)
    else
      let prop := if total % 50 = 0 then
          adapt c.prop total ((c.accepted : ℝ) / (total : ℝ)) else c.prop
      some (⟨c.current, c.current_log_posterior, c.temperature, prop,
        c.accepted, total, c.samples ++ [c.current]⟩, r2)

/-! ## Parallel-tempering ensemble -/

/-- State of `ParallelTemperingMCMC` (`num_chains` is `chains.length`). -/
structure PTState where
  chains : List MCMCChainState
  temperatures : List (Option ℝ)
  data : Data
  priors : Priors
  swap_accepted : ℕ
  swap_total : ℕ

/-- Chain-construction loop of the `ParallelTemperingMCMC` constructor: one
chain per ladder entry, each initialized from the four wide uniform draws
`floor ∈ [0.01, 0.5)`, `ceiling ∈ [0.1, 0.9)`, `ec50 ∈ [-2, 2)`,
`slope ∈ [0.1, 3)`. -/
noncomputable def constructChains (d : Data) (pr : Priors) :
    List (Option ℝ) → RngState → List MCMCChainState × RngState
  | [], r => ([], r)
  | t :: ts, r =>
    let f := uniformRange 0.01 0.5 r
    let r1 := nextRng r
    let c := uniformRange 0.1 0.9 r1
    let r2 := nextRng r1
    let e := uniformRange (-2) 2 r2
    let r3 := nextRng r2
    let s := uniformRange 0.1 3 r3
    let r4 := nextRng r3
    let rest := constructChains d pr ts r4
    (mkChain t ⟨f, c, e, s⟩ d pr :: rest.1, rest.2)

/-- `ParallelTemperingMCMC` constructor: ladder, then chains; no input
validation of any kind is performed. -/
noncomputable def construct (K : ℕ) (d : Data) (pr : Priors) (r : RngState) :
    PTState × RngState :=
  let temps := temperaturesList K
  let built := constructChains d pr temps r
  (⟨built.1, temps, d, pr, 0, 0⟩, built.2)

/-- Swap acceptance `log(u) < (lp_i - lp_j) * (1/T_j - 1/T_i)` on the
`Option ℝ` encoding.  Non-finite cached values cannot occur for in-domain
states under the priors in scope (the only regime the theorems below
address); the encoding maps them to rejection. -/
def swapAccept (u : ℝ) : Option ℝ → Option ℝ → Option ℝ → Option ℝ → Prop
  | some li, some lj, some ti, some tj =>
    Real.log u < (li - lj) * (1 / tj - 1 / ti)
  | _, _, _, _ => False

open Classical in
/-- The swap block of `ParallelTemperingMCMC::run`: on the cadence
`iter % 10 == 0` with more than one chain, draw a uniform adjacent pair
`(i, i+1)`, increment `swap_total`, Metropolis-test the cached tempered
log-posteriors, and on acceptance exchange the two states (recomputing both
cached log-posteriors via `set_current`) and increment `swap_accepted`. -/
noncomputable def swapPhase (iter : ℕ) (st : PTState) (r : RngState) :
    PTState × RngState :=
  if iter % 10 = 0 ∧ 1 < st.chains.length then
    let i := intRange (st.chains.length - 2) r
    let r1 := nextRng r
    let j := i + 1
    let u := uniformVal r1
    let r2 := nextRng r1
    if swapAccept u (st.chains.getD i default).current_log_posterior
        (st.chains.getD j default).current_log_posterior
        (st.temperatures.getD i none) (st.temperatures.getD j none) then
      let temp_params := (st.chains.getD i default).current
      let chains1 := st.chains.set i
        (setCurrent (st.chains.getD i default)
          ((st.chains.getD j default).current) st.data st.priors)
      let chains2 := chains1.set j
        (setCurrent (chains1.getD j default) temp_params st.data st.priors)
      ({ st with
          chains := chains2
          swap_total := st.swap_total + 1
          swap_accepted := st.swap_accepted + 1 }, r2)
    else
      ({ st with swap_total := st.swap_total + 1 }, r2)
  else (st, r)

/-- Step every chain in ladder order, threading the shared generator. -/
noncomputable def stepChainsList (d : Data) (pr : Priors) :
    List MCMCChainState → RngState → Option (List MCMCChainState × RngState)
  | [], r => some ([], r)
  | c :: cs, r =>
    match stepChain d pr c r with
    | none => none
    | some (c', r') =>
      match stepChainsList d pr cs r' with
      | none => none
      | some (cs', r'') => some (c' :: cs', r'')

/-- One iteration of `ParallelTemperingMCMC::run`. -/
noncomputable def runIter (iter : ℕ) (st : PTState) (r : RngState) :
    Option (PTState × RngState) :=
  match stepChainsList st.data st.priors st.chains r with
  | none => none
  | some (chs, r') => some (swapPhase iter { st with chains := chs } r')

/-- The iteration loop of `run(n)` from a given starting iteration index. -/
noncomputable def runFrom (iter : ℕ) :
    ℕ → PTState × RngState → Option (PTState × RngState)
  | 0, s => some s
  | n + 1, s =>
    match runIter iter s.1 s.2 with
    | none => none
    | some s' => runFrom (iter + 1) n s'

/-- `ParallelTemperingMCMC::run(n)`: the iteration counter restarts at 0 on
every call, so the swap cadence is relative to the call. -/
noncomputable def runPT (n : ℕ) (s : PTState × RngState) :
    Option (PTState × RngState) :=
  runFrom 0 n s

/-! ## Host-facing facade -/

/-- Host calls relevant to construction, seeding and running. -/
inductive Cmd where
  | setSeed (seed : ℕ)
  | construct (K : ℕ) (d : Data) (pr : Priors)
  | run (n : ℕ)

/-- Program state visible to the host bridge: the shared generator and the
currently held ensemble (none before any `construct`). -/
structure GlobalState where
  rng : RngState
  ens : Option PTState

/-- Host-facing execution.  `set_random_seed` replaces the generator state
with the freshly seeded one (discarding all prior generator history);
`construct` replaces the held ensemble; `run` advances it (`run` without an
ensemble is a host-side error and leaves the state unchanged).  `none`
models a call that never returns. -/
noncomputable def execCmds : List Cmd → GlobalState → Option GlobalState
  | [], g => some g
  | Cmd.setSeed s :: cs, _g => execCmds cs ⟨mkRng s, _g.ens⟩
  | Cmd.construct K d pr :: cs, g =>
    let built := construct K d pr g.rng
    execCmds cs ⟨built.2, some built.1⟩
  | Cmd.run n :: cs, g =>
    match g.ens with
    | none => execCmds cs g
    | some st =>
      match runPT n (st, g.rng) with
      | none => none
      | some s' => execCmds cs ⟨s'.2, some s'.1⟩

/-- Observable outputs at a warmup `w`: cold-chain trace (`get_samples`),
per-chain acceptance rates (`get_acceptance_rates`), swap rate
(`get_swap_rate`) and the two diagnostics. -/
noncomputable def observe (w : ℕ) (g : GlobalState) :
    List Params × List ℝ × ℝ × List ℝ × List ℝ :=
  match g.ens with
  | none => ([], [], 0, [], [])
  | some st =>
    let samples := (st.chains.getD 0 default).samples
    (samples,
     st.chains.map (fun c =>
       if c.total = 0 then 0 else (c.accepted : ℝ) / (c.total : ℝ)),
     (if st.swap_total = 0 then 0
      else (st.swap_accepted : ℝ) / (st.swap_total : ℝ)),
     compute_rhat samples w,
     compute_ess samples w)

/-- Domain constraints of spec §3 on a parameter vector: floor and ceiling
strictly inside `(0,1)` and slope strictly positive (`ec50` ranges over all
of ℝ, and every real is finite in this model). -/
def InDomain (p : Params) : Prop :=
  0 < p.floor ∧ p.floor < 1 ∧ 0 < p.ceiling ∧ p.ceiling < 1 ∧ 0 < p.slope

/-- Concrete in-domain chain used in witnesses. -/
noncomputable def witnessChain : MCMCChainState :=
  ⟨⟨1/2, 1/2, 0, 1⟩, some 0, some 1, initProp, 0, 0, []⟩

/-- Concrete one-chain ensemble used in the C3 witness. -/
noncomputable def witnessPT : PTState :=
  ⟨[witnessChain], [some 1], ⟨[], []⟩, ⟨1, 1, 1, 1, 0, 1, 1, 1⟩, 0, 0⟩

/-- Second concrete in-domain chain (hot chain of the witness ensemble). -/
noncomputable def witnessChain2 : MCMCChainState :=
  ⟨⟨1/4, 3/4, 0, 2⟩, some (-1), some 10, initProp, 0, 0, []⟩

/-- Concrete two-chain ensemble with ladder `[1, 10]`. -/
noncomputable def witnessPT2 : PTState :=
  ⟨[witnessChain, witnessChain2], [some 1, some 10], ⟨[], []⟩,
    ⟨1, 1, 1, 1, 0, 1, 1, 1⟩, 0, 0⟩

/-- Number of swap attempts in `n` iterations starting at iteration index
`iter` (one attempt per index divisible by 10). -/
def countSwaps : ℕ → ℕ → ℕ
  | _, 0 => 0
  | iter, n + 1 => (if iter % 10 = 0 then 1 else 0) + countSwaps (iter + 1) n

/-- Concrete zero-chain ensemble (the constructor with `K = 0` produces
exactly this shape) used in the C10 witness. -/
noncomputable def emptyPT : PTState :=
  ⟨[], [], ⟨[], []⟩, ⟨1, 1, 1, 1, 0, 1, 1, 1⟩, 0, 0⟩

/-! ## Theorems -/

/-- Successful results of the floor/ceiling reflection loop lie strictly
inside `(0,1)`. -/
theorem reflect01Fuel_mem {fuel : ℕ} {x r : ℝ}
    (h : reflect01Fuel fuel x = some r) : 0 < r ∧ r < 1 := by
  induction fuel generalizing x with
  | zero =>
    by_cases hc : x ≤ 0 ∨ 1 ≤ x <;> simp [reflect01Fuel, hc] at h
    subst h
    push_neg at hc
    exact ⟨hc.1, hc.2⟩
  | succ n ih =>
    by_cases hc : x ≤ 0 ∨ 1 ≤ x
    · rw [reflect01Fuel, if_pos hc] at h
      exact ih h
    · rw [reflect01Fuel, if_neg hc] at h
      obtain rfl : x = r := by simpa using h
      push_neg at hc
      exact ⟨hc.1, hc.2⟩

/-- Successful results of the slope reflection loop are strictly positive. -/
theorem reflectPosFuel_pos {fuel : ℕ} {x r : ℝ}
    (h : reflectPosFuel fuel x = some r) : 0 < r := by
  induction fuel generalizing x with
  | zero =>
    by_cases hc : x ≤ 0 <;> simp [reflectPosFuel, hc] at h
    subst h; linarith
  | succ n ih =>
    by_cases hc : x ≤ 0
    · rw [reflectPosFuel, if_pos hc] at h
      exact ih h
    · rw [reflectPosFuel, if_neg hc] at h
      obtain rfl : x = r := by simpa using h
      linarith [not_le.mp hc]

/-- The reflection body maps non-integers to non-integers. -/
theorem reflectStep01_notIntegral {x : ℝ} (h : NotIntegral x) :
    NotIntegral (reflectStep01 x) := by
  intro m hm
  unfold reflectStep01 at hm
  by_cases h0 : x ≤ 0 <;> by_cases h1 : (1 : ℝ) ≤ (if x ≤ 0 then -x else x) <;>
      simp only [h0, if_pos, if_neg, if_true, if_false] at hm
  · simp only [if_pos h0] at h1 hm
    rw [if_pos h1] at hm
    exact h (m - 2) (by push_cast; linarith)
  · simp only [if_pos h0] at h1 hm
    rw [if_neg h1] at hm
    exact h (-m) (by push_cast; linarith)
  · simp only [if_neg h0] at h1 hm
    rw [if_pos h1] at hm
    exact h (2 - m) (by push_cast; linarith)
  · simp only [if_neg h0] at h1 hm
    rw [if_neg h1] at hm
    exact h m (by linarith)

/-- Fuel `k + 1` suffices for the floor/ceiling reflection loop whenever the
candidate is a non-integer of absolute value at most `k`, and the result lies
strictly inside `(0,1)`. -/
theorem reflect01Fuel_terminates :
    ∀ (k : ℕ) (x : ℝ), NotIntegral x → |x| ≤ k →
      ∃ r : ℝ, reflect01Fuel (k + 1) x = some r ∧ 0 < r ∧ r < 1 := by
  intro k
  induction k with
  | zero =>
    intro x hni hx
    exfalso
    have hx0 : x = 0 := by
      have := abs_nonneg x
      have : |x| = 0 := le_antisymm (by simpa using hx) (abs_nonneg x)
      exact abs_eq_zero.mp this
    exact hni 0 (by simp [hx0])
  | succ k ih =>
    intro x hni hx
    by_cases hc : x ≤ 0 ∨ 1 ≤ x
    · -- the loop body runs once; analyse the reflected value
      have hstep : reflect01Fuel (k + 1 + 1) x = reflect01Fuel (k + 1) (reflectStep01 x) := by
        rw [reflect01Fuel, if_pos hc]
      set y : ℝ := if x ≤ 0 then -x else x with hy
      have hy0 : 0 < y := by
        rcases le_or_lt x 0 with h0 | h0
        · have hxne : x ≠ 0 := fun h => hni 0 (by simp [h])
          simp only [hy, if_pos h0]
          cases lt_or_eq_of_le h0 with
          | inl h => linarith
          | inr h => exact absurd h hxne
        · simp only [hy, if_neg (not_le.mpr h0)]; exact h0
      have hyabs : y ≤ |x| := by
        rcases le_or_lt x 0 with h0 | h0
        · simp only [hy, if_pos h0]; rw [abs_of_nonpos h0]
        · simp only [hy, if_neg (not_le.mpr h0)]; rw [abs_of_pos h0]
      have hyni : NotIntegral y := by
        intro m hm
        rcases le_or_lt x 0 with h0 | h0
        · simp only [hy, if_pos h0] at hm
          exact hni (-m) (by push_cast; linarith)
        · simp only [hy, if_neg (not_le.mpr h0)] at hm
          exact hni m hm
      by_cases h1 : (1 : ℝ) ≤ y
      · have hy1 : 1 < y := lt_of_le_of_ne h1 (fun h => hyni 1 (by simpa using h.symm))
        have hz : reflectStep01 x = 2 - y := by
          rw [reflectStep01]; simp only [← hy, if_pos h1]
        by_cases h2 : y < 2
        · -- lands strictly inside (0,1): the next check exits the loop
          have hin : ¬((2 - y : ℝ) ≤ 0 ∨ 1 ≤ (2 - y : ℝ)) := by
            push_neg; constructor <;> linarith
          refine ⟨2 - y, ?_, by linarith, by linarith⟩
          rw [hstep, hz, reflect01Fuel, if_neg hin]
        · -- |2 - y| = y - 2 ≤ k - 1 ≤ k: use the induction hypothesis
          have hy2 : 2 < y := by
            rcases lt_or_eq_of_le (not_lt.mp h2) with h | h
            · exact h
            · exact absurd h.symm (fun hh => hyni 2 (by simpa using hh))
          have hzni : NotIntegral (2 - y) := by
            intro m hm
            exact hyni (2 - m) (by push_cast; linarith)
          have hzabs : |2 - y| ≤ k := by
            rw [abs_of_nonpos (by linarith)]
            have : y ≤ k + 1 := le_trans hyabs (by exact_mod_cast hx)
            linarith
          obtain ⟨r, hr, hr0, hr1⟩ := ih (2 - y) hzni hzabs
          exact ⟨r, by rw [hstep, hz]; exact hr, hr0, hr1⟩
      · -- y already strictly inside (0,1): the next check exits the loop
        have hz : reflectStep01 x = y := by
          rw [reflectStep01]; simp only [← hy, if_neg h1]
        have hin : ¬(y ≤ 0 ∨ 1 ≤ y) := by push_neg; exact ⟨hy0, not_le.mp h1⟩
        refine ⟨y, ?_, hy0, not_le.mp h1⟩
        rw [hstep, hz, reflect01Fuel, if_neg hin]
    · push_neg at hc
      refine ⟨x, ?_, hc.1, hc.2⟩
      rw [reflect01Fuel, if_neg (by push_neg; exact hc)]

/-- Fuel `1` suffices for the slope reflection loop on any nonzero candidate. -/
theorem reflectPosFuel_terminates (x : ℝ) (hx : x ≠ 0) :
    ∃ r : ℝ, reflectPosFuel 1 x = some r ∧ 0 < r := by
  by_cases hc : x ≤ 0
  · have hneg : x < 0 := lt_of_le_of_ne hc hx
    refine ⟨-x, ?_, by linarith⟩
    rw [reflectPosFuel, if_pos hc, reflectPosFuel, if_neg (by linarith)]
  · exact ⟨x, by rw [reflectPosFuel, if_neg hc], not_le.mp hc⟩

/-- On the boundary value `0` the floor/ceiling reflection loop never exits:
`-0 = 0` is a fixed point of the body that keeps failing the exit test. -/
theorem reflect01Fuel_zero_none (fuel : ℕ) : reflect01Fuel fuel 0 = none := by
  induction fuel with
  | zero => simp [reflect01Fuel]
  | succ n ih =>
    have hstep : reflectStep01 (0 : ℝ) = 0 := by
      rw [reflectStep01]; norm_num
    rw [reflect01Fuel, if_pos (by norm_num), hstep, ih]

theorem temperaturesList_getD {K i : ℕ} (h : i < K) :
    (temperaturesList K).getD i none
      = (ladderExponent i K).map (fun e => (10 : ℝ) ^ e) := by
  rw [temperaturesList, List.getD_eq_getElem?_getD]
  rw [List.getElem?_map, List.getElem?_range h]
  rfl

/-- C2, counterexample: the claim asserts the reflection loops terminate even
when a perturbed candidate lands exactly on a boundary, but at the boundary
value `0` (reachable, e.g. current floor `0.1` with perturbation `-0.1`) the
floor/ceiling loop of `ProposalDistribution::propose` never exits: no amount
of fuel makes it produce a value. -/
theorem c2_boundary_nontermination :
    ¬ ∃ fuel : ℕ, (reflect01Fuel fuel (0 : ℝ)).isSome := by
  rintro ⟨fuel, h⟩
  rw [reflect01Fuel_zero_none] at h
  simp at h

/-- C2, amended: the boundary-reflection loops of
`ProposalDistribution::propose` terminate and deliver in-range values for
every candidate except the boundary fixed points: the floor/ceiling loop
terminates with a result strictly in `(0,1)` for every non-integer
candidate (under a continuous Gaussian perturbation, candidates are
non-integers with probability one), and the slope loop terminates with a
strictly positive result for every nonzero candidate. -/
theorem c2_reflection_terminates_off_boundary :
    (∀ x : ℝ, NotIntegral x →
      ∃ fuel : ℕ, ∃ r : ℝ, reflect01Fuel fuel x = some r ∧ 0 < r ∧ r < 1) ∧
    (∀ x : ℝ, x ≠ 0 →
      ∃ fuel : ℕ, ∃ r : ℝ, reflectPosFuel fuel x = some r ∧ 0 < r) := by
  constructor
  · intro x hx
    obtain ⟨r, hr, h0, h1⟩ :=
      reflect01Fuel_terminates ⌈|x|⌉₊ x hx (Nat.le_ceil _)
    exact ⟨⌈|x|⌉₊ + 1, r, hr, h0, h1⟩
  · intro x hx
    obtain ⟨r, hr, h0⟩ := reflectPosFuel_terminates x hx
    exact ⟨1, r, hr, h0⟩

/-- C2, witness: the termination theorem applied at the concrete candidates
`1/2` (floor/ceiling loop) and `1` (slope loop). -/
theorem c2_reflection_terminates_witness :
    (∃ fuel : ℕ, ∃ r : ℝ, reflect01Fuel fuel (1/2 : ℝ) = some r ∧ 0 < r ∧ r < 1) ∧
    (∃ fuel : ℕ, ∃ r : ℝ, reflectPosFuel fuel (1 : ℝ) = some r ∧ 0 < r) := by
  constructor
  · refine c2_reflection_terminates_off_boundary.1 (1/2) ?_
    intro m hm
    have h2 : (1 : ℝ) = 2 * (m : ℝ) := by linarith
    have h3 : (1 : ℤ) = 2 * m := by exact_mod_cast h2
    omega
  · exact c2_reflection_terminates_off_boundary.2 1 one_ne_zero

/-- C4, counterexample: at `K = 1` the single temperature is
`pow(10, 0.0/0.0) = NaN` (modelled `none`), not the value `1` the claim
requires for the edge case. -/
theorem c4_single_chain_temperature_nan : temperaturesList 1 = [none] := by
  simp [temperaturesList, ladderExponent, List.range_succ]

/-- C4, amended: for every `K ≥ 2` the ladder satisfies the claimed geometric
form `T_k = 10^(k/(K-1))` (a function of `K` and `T_max = 10` alone), with
`T_0 = 1`, `T_{K-1} = 10`, and strictly increasing temperatures.  At `K = 1`
the code instead produces `NaN` (see the counterexample). -/
theorem c4_temperature_ladder (K : ℕ) (hK : 2 ≤ K) :
    (temperaturesList K).length = K ∧
    (∀ i, i < K → (temperaturesList K).getD i none
        = some ((10 : ℝ) ^ ((i : ℝ) / ((K : ℝ) - 1)))) ∧
    (temperaturesList K).getD 0 none = some 1 ∧
    (temperaturesList K).getD (K - 1) none = some 10 ∧
    (∀ i j, i < j → j < K → ∀ ti tj,
      (temperaturesList K).getD i none = some ti →
      (temperaturesList K).getD j none = some tj → ti < tj) := by
  have hKR : (1 : ℝ) ≤ (K : ℝ) - 1 := by
    have : (2 : ℝ) ≤ (K : ℝ) := by exact_mod_cast hK
    linarith
  have hne : (K : ℤ) - 1 ≠ 0 := by omega
  have hform : ∀ i, i < K → (temperaturesList K).getD i none
      = some ((10 : ℝ) ^ ((i : ℝ) / ((K : ℝ) - 1))) := by
    intro i hi
    rw [temperaturesList_getD hi, ladderExponent, if_neg hne]
    rfl
  refine ⟨by simp [temperaturesList], hform, ?_, ?_, ?_⟩
  · rw [hform 0 (by omega)]
    norm_num
  · rw [hform (K - 1) (by omega)]
    have hc : ((K - 1 : ℕ) : ℝ) = (K : ℝ) - 1 := by
      push_cast [Nat.cast_sub (by omega : 1 ≤ K)]
      ring
    rw [hc, div_self (by linarith), Real.rpow_one]
  · intro i j hij hj ti tj hti htj
    rw [hform i (by omega)] at hti
    rw [hform j hj] at htj
    obtain rfl : ti = (10 : ℝ) ^ ((i : ℝ) / ((K : ℝ) - 1)) := by
      simpa using hti.symm
    obtain rfl : tj = (10 : ℝ) ^ ((j : ℝ) / ((K : ℝ) - 1)) := by
      simpa using htj.symm
    rw [Real.rpow_lt_rpow_left_iff (by norm_num : (1 : ℝ) < 10)]
    rw [div_lt_div_iff_of_pos_right (by linarith : (0 : ℝ) < (K : ℝ) - 1)]
    exact_mod_cast hij

/-! ## Structure of the likelihood and tempered posterior (claim C5) -/

theorem oadd_none_left (l : List (Option ℝ)) : l.foldl oadd none = none := by
  induction l with
  | nil => rfl
  | cons x xs ih => simpa [oadd] using ih

theorem foldl_oadd_eq (l : List (Option ℝ)) (a : ℝ) :
    l.foldl oadd (some a)
      = if none ∈ l then none else some (a + (l.map (fun t => t.getD 0)).sum) := by
  induction l generalizing a with
  | nil => simp
  | cons x xs ih =>
    cases x with
    | none => simpa [oadd] using oadd_none_left xs
    | some b =>
      rw [List.foldl_cons]
      show xs.foldl oadd (oadd (some a) (some b)) = _
      rw [show oadd (some a) (some b) = some (a + b) from rfl, ih]
      by_cases h : none ∈ xs
      · simp [h]
      · simp only [List.mem_cons, h, or_false, if_false, List.map_cons, List.sum_cons,
          reduceCtorEq, Option.getD_some]
        congr 1
        ring

/-- C5: `log_likelihood` is exactly the short-circuiting sum of per-observation
Bernoulli log-pmfs, and `log_posterior_tempered` equals
`log_prior + log_likelihood / T` when both are finite and `-INFINITY` when
either is non-finite.  The temperature is restricted to `T > 0` (every ladder
temperature is at least 1), where real and IEEE arithmetic agree on `ll / T`. -/
theorem c5_tempered_posterior_structure (p : Params) (d : Data) (pr : Priors)
    (T : ℝ) (_hT : 0 < T) :
    log_likelihood p d = log_likelihood_specification p d ∧
    log_posterior_tempered p d pr T =
      (match log_prior p pr, log_likelihood_specification p d with
       | some lp, some ll => some (lp + ll / T)
       | _, _ => none) := by
  have hll : log_likelihood p d = log_likelihood_specification p d := by
    rw [log_likelihood, log_likelihood_specification]
    have hfold : (List.range d.N).foldl
        (fun acc i =>
          oadd acc (log_bernoulli_pmf (d.infected.getD i 0)
            (prob_infection p (d.titre.getD i 0))))
        (some 0) = (bernoulliTerms p d).foldl oadd (some 0) := by
      rw [bernoulliTerms, List.foldl_map]
    rw [hfold, foldl_oadd_eq]
    by_cases h : none ∈ bernoulliTerms p d
    · simp [h]
    · simp [h]
  refine ⟨hll, ?_⟩
  rw [log_posterior_tempered, hll]
  rcases hp : log_prior p pr with _ | lp
  · rfl
  · rcases hl : log_likelihood_specification p d with _ | ll <;> rfl

/-- C5, witness: the structure theorem at a concrete parameter vector, an
empty dataset, default priors and temperature 1. -/
theorem c5_tempered_posterior_structure_witness :
    log_likelihood ⟨1/2, 1/2, 0, 1⟩ ⟨[], []⟩
        = log_likelihood_specification ⟨1/2, 1/2, 0, 1⟩ ⟨[], []⟩ ∧
    log_posterior_tempered ⟨1/2, 1/2, 0, 1⟩ ⟨[], []⟩ ⟨1, 1, 1, 1, 0, 1, 1, 1⟩ 1 =
      (match log_prior ⟨1/2, 1/2, 0, 1⟩ ⟨1, 1, 1, 1, 0, 1, 1, 1⟩,
             log_likelihood_specification ⟨1/2, 1/2, 0, 1⟩ ⟨[], []⟩ with
       | some lp, some ll => some (lp + ll / 1)
       | _, _ => none) :=
  c5_tempered_posterior_structure ⟨1/2, 1/2, 0, 1⟩ ⟨[], []⟩ ⟨1, 1, 1, 1, 0, 1, 1, 1⟩ 1
    (by norm_num)

/-- C4, witness: the ladder theorem at the concrete chain count `K = 2`. -/
theorem c4_temperature_ladder_witness :
    (temperaturesList 2).getD 0 none = some 1 ∧
    (temperaturesList 2).getD 1 none = some 10 := by
  refine ⟨(c4_temperature_ladder 2 (by norm_num)).2.2.1, ?_⟩
  have h := (c4_temperature_ladder 2 (by norm_num)).2.2.2.1
  simpa using h

/-- C8: whenever the post-warmup count `n = |trace| - w` is below 100 —
including `w` at or beyond the trace length — `compute_rhat` returns exactly
`[1,1,1,1]` and `compute_ess` exactly `[0,0,0,0]`, for every trace content
(so no trace element is consulted) and without any failure. -/
theorem c8_diagnostic_sentinels (samples : List Params) (warmup : ℕ)
    (h : (samples.length : ℤ) - (warmup : ℤ) < 100) :
    compute_rhat samples warmup = [1, 1, 1, 1] ∧
    compute_ess samples warmup = [0, 0, 0, 0] := by
  rw [compute_rhat, compute_ess]
  exact ⟨by rw [if_pos h], by rw [if_pos h]⟩

/-- C8, witness: the sentinel theorem at the empty trace with warmup 0, and
at a warmup beyond the trace length. -/
theorem c8_diagnostic_sentinels_witness :
    (compute_rhat [] 0 = [1, 1, 1, 1] ∧ compute_ess [] 0 = [0, 0, 0, 0]) ∧
    (compute_rhat [default] 7 = [1, 1, 1, 1] ∧
      compute_ess [default] 7 = [0, 0, 0, 0]) :=
  ⟨c8_diagnostic_sentinels [] 0 (by norm_num),
   c8_diagnostic_sentinels [default] 7 (by norm_num)⟩

/-- The push-back index loop `for (i = w; i < w + n; ++i) out.push_back(l[i])`
equals the slice `l[w : w+n)`. -/
theorem range_map_getD (l : List Params) :
    ∀ (n w : ℕ), w + n ≤ l.length →
      (List.range n).map (fun k => l.getD (w + k) default) = (l.drop w).take n := by
  intro n
  induction n with
  | zero => intro w h; simp
  | succ n ih =>
    intro w h
    have hw : w < l.length := by omega
    rw [List.range_succ_eq_map, List.map_cons, List.map_map]
    have hrest : ((fun k => l.getD (w + k) default) ∘ Nat.succ)
        = (fun k => l.getD ((w + 1) + k) default) := by
      funext k
      have hk : w + (k + 1) = w + 1 + k := by omega
      simp [Function.comp, Nat.succ_eq_add_one, hk]
    rw [hrest, ih (w + 1) (by omega)]
    rw [List.drop_eq_getElem_cons hw, List.take_succ_cons]
    congr 1
    rw [Nat.add_zero, List.getD_eq_getElem l default hw]

theorem rhat_param_code_eq_spec (c1 c2 : List ℝ)
    (h1 : 1 ≤ c1.length) (h2 : 1 ≤ c2.length) :
    rhat_param_code c1 c2 = rhat_param_spec c1.length c1 c2 := by
  simp only [rhat_param_code, rhat_param_spec, ← pow_two,
    Nat.cast_sub h1, Nat.cast_sub h2, Nat.cast_one]

/-- The code's split R-hat coincides with the §4.5 computation once each
half's variance divisor is read as that half's own length minus one. -/
theorem compute_rhat_eq_spec (trace : List Params) (w : ℕ) :
    compute_rhat trace w = compute_rhat_spec trace w := by
  rw [compute_rhat, compute_rhat_spec]
  simp only [List.length_drop]
  by_cases hn : (trace.length : ℤ) - (w : ℤ) < 100
  · rw [if_pos hn, if_pos (by omega)]
  · have hw : w + 100 ≤ trace.length := by omega
    rw [if_neg hn, if_neg (by omega)]
    have hhalf : ((((trace.length : ℤ) - (w : ℤ)) / 2)).toNat
        = (trace.length - w) / 2 := by omega
    set m : ℕ := (trace.length - w) / 2 with hm
    have hc1 : (List.range ((((trace.length : ℤ) - (w : ℤ)) / 2)).toNat).map
        (fun k => trace.getD (w + k) default) = (trace.drop w).take m := by
      rw [hhalf]
      exact range_map_getD trace m w (by omega)
    have hc2 : (List.range (trace.length
          - (w + ((((trace.length : ℤ) - (w : ℤ)) / 2)).toNat))).map
        (fun k => trace.getD
          (w + ((((trace.length : ℤ) - (w : ℤ)) / 2)).toNat + k) default)
        = (trace.drop w).drop m := by
      rw [hhalf]
      have hfull : (List.range (trace.length - (w + m))).map
          (fun k => trace.getD (w + m + k) default)
          = (trace.drop (w + m)).take (trace.length - (w + m)) :=
        range_map_getD trace (trace.length - (w + m)) (w + m) (by omega)
      rw [hfull, List.drop_drop]
      have : trace.length - (w + m) = (trace.drop (w + m)).length := by
        rw [List.length_drop]
      rw [this, List.take_length]
    rw [hc1, hc2]
    have hl1 : ∀ f : Params → ℝ, (((trace.drop w).take m).map f).length = m := by
      intro f
      simp only [List.length_map, List.length_take, List.length_drop]
      omega
    have hl2 : ∀ f : Params → ℝ, (((trace.drop w).drop m).map f).length
        = trace.length - w - m := by
      intro f
      simp only [List.length_map, List.length_drop]
    have hcomp : ∀ f : Params → ℝ,
        rhat_param_code (((trace.drop w).take m).map f)
            (((trace.drop w).drop m).map f)
          = rhat_param_spec m (((trace.drop w).take m).map f)
            (((trace.drop w).drop m).map f) := by
      intro f
      have e := rhat_param_code_eq_spec (((trace.drop w).take m).map f)
        (((trace.drop w).drop m).map f)
        (by rw [hl1]; omega) (by rw [hl2]; omega)
      rw [e, hl1]
    simp only [hcomp]

theorem rhatTrace_length : rhatTrace.length = 101 := by
  simp [rhatTrace]

theorem rhatTrace_take50 : rhatTrace.take 50 = List.replicate 50 Pz := by
  rw [rhatTrace, List.take_append_of_le_length (by simp), List.take_replicate]
  rfl

theorem rhatTrace_drop50 :
    rhatTrace.drop 50 = List.replicate 50 Pz ++ [Po] := by
  rw [rhatTrace, List.drop_append_of_le_length (by simp), List.drop_replicate]

theorem rhat_code_eval :
    rhat_param_code (List.replicate 50 (0 : ℝ)) (List.replicate 50 (0 : ℝ) ++ [1])
      = Real.sqrt (2549 / 2550) := by
  simp only [rhat_param_code, List.length_replicate, List.length_append,
    List.length_cons, List.length_nil, List.sum_replicate, List.map_replicate,
    List.map_append, List.sum_append, List.map_cons, List.map_nil,
    List.sum_cons, List.sum_nil, smul_eq_mul, nsmul_eq_mul]
  norm_num

theorem rhat_claimed_eval :
    rhat_param_claimed 50 (List.replicate 50 (0 : ℝ))
        (List.replicate 50 (0 : ℝ) ++ [1])
      = Real.sqrt (2548 / 2550) := by
  simp only [rhat_param_claimed, List.length_replicate, List.length_append,
    List.length_cons, List.length_nil, List.sum_replicate, List.map_replicate,
    List.map_append, List.sum_append, List.map_cons, List.map_nil,
    List.sum_cons, List.sum_nil, smul_eq_mul, nsmul_eq_mul]
  norm_num

theorem rhat_spec_first_component :
    (compute_rhat_spec rhatTrace 0).getD 0 0 = Real.sqrt (2549 / 2550) := by
  have h50 : ((List.replicate 50 Pz).map Params.floor : List ℝ)
      = List.replicate 50 (0 : ℝ) := by
    simp [Pz]
  have h51 : (((List.replicate 50 Pz ++ [Po]).map Params.floor) : List ℝ)
      = List.replicate 50 (0 : ℝ) ++ [1] := by
    simp [Pz, Po]
  have e := rhat_param_code_eq_spec (List.replicate 50 (0 : ℝ))
    (List.replicate 50 (0 : ℝ) ++ [1]) (by simp) (by simp)
  simp only [List.length_replicate] at e
  simp only [compute_rhat_spec, List.drop_zero, rhatTrace_length]
  rw [if_neg (by norm_num)]
  have hh : (101 : ℕ) / 2 = 50 := by norm_num
  rw [hh, rhatTrace_take50, rhatTrace_drop50, h50, h51]
  simp only [List.getD_cons_zero]
  rw [← e]
  · exact rhat_code_eval


theorem rhat_claimed_first_component :
    (compute_rhat_claimed rhatTrace 0).getD 0 0 = Real.sqrt (2548 / 2550) := by
  have h50 : ((List.replicate 50 Pz).map Params.floor : List ℝ)
      = List.replicate 50 (0 : ℝ) := by
    simp [Pz]
  have h51 : (((List.replicate 50 Pz ++ [Po]).map Params.floor) : List ℝ)
      = List.replicate 50 (0 : ℝ) ++ [1] := by
    simp [Pz, Po]
  simp only [compute_rhat_claimed, List.drop_zero, rhatTrace_length]
  rw [if_neg (by norm_num)]
  have hh : (101 : ℕ) / 2 = 50 := by norm_num
  rw [hh, rhatTrace_take50, rhatTrace_drop50, h50, h51]
  simp only [List.getD_cons_zero]
  exact rhat_claimed_eval

/-- C7, counterexample: on a trace with odd post-warmup length `n = 101`
(warmup 0), `compute_rhat` disagrees with the claimed §4.5 formula in its
floor component, because the second half has length 51 and the code divides
its sample variance by 50, not by `h - 1 = 49`: the code yields
`sqrt(2549/2550)` while the claimed formula yields `sqrt(2548/2550)`. -/
theorem c7_odd_half_counterexample :
    compute_rhat rhatTrace 0 ≠ compute_rhat_claimed rhatTrace 0 := by
  intro heq
  have h0 : (compute_rhat_spec rhatTrace 0).getD 0 0
      = (compute_rhat_claimed rhatTrace 0).getD 0 0 := by
    rw [← compute_rhat_eq_spec, heq]
  rw [rhat_spec_first_component, rhat_claimed_first_component] at h0
  rw [Real.sqrt_inj (by norm_num) (by norm_num)] at h0
  norm_num at h0

theorem uniformVal_mem (r : RngState) : 0 < uniformVal r ∧ uniformVal r < 1 := by
  have hb : hashVal r < 1000 := Nat.mod_lt _ (by omega)
  have hbR : (hashVal r : ℝ) < 1000 := by exact_mod_cast hb
  have h0 : (0 : ℝ) ≤ (hashVal r : ℝ) := Nat.cast_nonneg _
  constructor
  · unfold uniformVal; positivity
  · unfold uniformVal
    rw [div_lt_one (by norm_num)]
    linarith

theorem uniformRange_mem (lo hi : ℝ) (h : lo < hi) (r : RngState) :
    lo < uniformRange lo hi r ∧ uniformRange lo hi r < hi := by
  obtain ⟨h0, h1⟩ := uniformVal_mem r
  unfold uniformRange
  constructor <;> nlinarith

theorem intRange_le (hi : ℕ) (r : RngState) : intRange hi r ≤ hi := by
  have := Nat.mod_lt (hashVal r) (show 0 < hi + 1 by omega)
  unfold intRange
  omega

/-- C9: determinism.  Two executions that first call `set_random_seed` with
the same seed and then perform the same sequence of `construct` and `run`
calls produce identical final states — in particular identical cold-chain
traces, acceptance rates, swap rates and diagnostics at every warmup —
whatever generator states the two processes started from: reseeding replaces
the single shared generator, and everything downstream is a deterministic
function of it. -/
theorem c9_seed_determinism (seed : ℕ) (cmds : List Cmd)
    (r1 r2 : RngState) (w : ℕ) :
    execCmds (Cmd.setSeed seed :: cmds) ⟨r1, none⟩
      = execCmds (Cmd.setSeed seed :: cmds) ⟨r2, none⟩ ∧
    (execCmds (Cmd.setSeed seed :: cmds) ⟨r1, none⟩).map (observe w)
      = (execCmds (Cmd.setSeed seed :: cmds) ⟨r2, none⟩).map (observe w) := by
  have h : execCmds (Cmd.setSeed seed :: cmds) ⟨r1, none⟩
      = execCmds (Cmd.setSeed seed :: cmds) ⟨r2, none⟩ := rfl
  exact ⟨h, by rw [h]⟩

theorem constructChains_length (d : Data) (pr : Priors) (ts : List (Option ℝ))
    (r : RngState) : (constructChains d pr ts r).1.length = ts.length := by
  induction ts generalizing r with
  | nil => rfl
  | cons t ts ih => simp [constructChains, ih]

/-- C1, counterexample: with `K = 2`, empty data (`D.N = 0 < 1`) and priors
whose `ec50_sd` and `slope_sd` are `-1 ≤ 0`, the constructor — which the
claim says must fail — succeeds and leaves a fully observable two-chain
ensemble. -/
theorem c1_no_validation_counterexample :
    ((construct 2 ⟨[], []⟩ ⟨1, 1, 1, 1, 0, -1, 1, -1⟩ (mkRng 0)).1).chains.length = 2
    ∧ (⟨[], []⟩ : Data).N = 0 := by
  refine ⟨?_, rfl⟩
  show (constructChains _ _ (temperaturesList 2) (mkRng 0)).1.length = 2
  rw [constructChains_length]
  simp [temperaturesList]

/-- C1, amended: the constructor performs no input validation and never
fails: for every `K`, `D` and `Π` — including `K < 1`, `D.N < 1`,
non-positive prior SDs and non-positive Beta shapes — it returns an ensemble
with exactly `K` chains and a `K`-entry ladder.  (Invalid hyperparameters
surface later as non-finite log-densities, never as constructor errors.) -/
theorem c1_construct_never_fails (K : ℕ) (d : Data) (pr : Priors)
    (r : RngState) :
    ((construct K d pr r).1).chains.length = K ∧
    ((construct K d pr r).1).temperatures.length = K := by
  constructor
  · show (constructChains d pr (temperaturesList K) r).1.length = K
    rw [constructChains_length]
    simp [temperaturesList]
  · show (temperaturesList K).length = K
    simp [temperaturesList]

theorem reflect01_mem {x r : ℝ} (h : reflect01 x = some r) : 0 < r ∧ r < 1 :=
  reflect01Fuel_mem h

theorem reflectPos_pos {x r : ℝ} (h : reflectPos x = some r) : 0 < r :=
  reflectPosFuel_pos h

theorem propose_some_inDomain {ps : PropState} {cur q : Params}
    {r r' : RngState} (h : propose ps cur r = some (q, r')) : InDomain q := by
  simp only [propose] at h
  split at h
  · exact absurd h (by simp)
  rename_i f hf
  split at h
  · exact absurd h (by simp)
  rename_i c hc
  split at h
  · exact absurd h (by simp)
  rename_i s hs
  rw [Option.some_inj] at h
  obtain ⟨hq, -⟩ := Prod.mk.inj h
  subst hq
  obtain ⟨hf0, hf1⟩ := reflect01_mem hf
  obtain ⟨hc0, hc1⟩ := reflect01_mem hc
  exact ⟨hf0, hf1, hc0, hc1, reflectPos_pos hs⟩

theorem constructChains_inDomain (d : Data) (pr : Priors) :
    ∀ (ts : List (Option ℝ)) (r : RngState),
      ∀ c ∈ (constructChains d pr ts r).1, InDomain c.current := by
  intro ts
  induction ts with
  | nil => intro r c hc; simp [constructChains] at hc
  | cons t ts ih =>
    intro r c hc
    simp only [constructChains, List.mem_cons] at hc
    rcases hc with rfl | hc
    · obtain ⟨ha, hb⟩ := uniformRange_mem 0.01 0.5 (by norm_num) r
      obtain ⟨hd2, he⟩ := uniformRange_mem 0.1 0.9 (by norm_num) (nextRng r)
      obtain ⟨hg, hh⟩ := uniformRange_mem 0.1 3 (by norm_num)
        (nextRng (nextRng (nextRng r)))
      simp only [InDomain, mkChain]
      refine ⟨by linarith, by linarith, by linarith, by linarith, by linarith⟩
    · exact ih _ c hc

theorem stepChain_preserves (d : Data) (pr : Priors) (c : MCMCChainState)
    (r : RngState) (c' : MCMCChainState) (r' : RngState)
    (hdom : InDomain c.current) (h : stepChain d pr c r = some (c', r')) :
    InDomain c'.current ∧
      (c'.current = c.current ∨ c'.current_log_posterior ≠ none) := by
  simp only [stepChain] at h
  split at h
  · exact absurd h (by simp)
  rename_i proposed r1 hq
  have hprop : propose c.prop c.current r = some (proposed, r1) := hq
  split at h
  case isTrue hacc =>
    rw [Option.some_inj] at h
    obtain ⟨hc', -⟩ := Prod.mk.inj h
    subst hc'
    refine ⟨propose_some_inDomain hprop, Or.inr ?_⟩
    intro hnone
    have hnone' : chainLPT proposed d pr c.temperature = none := hnone
    rw [hnone'] at hacc
    exact hacc
  case isFalse hacc =>
    rw [Option.some_inj] at h
    obtain ⟨hc', -⟩ := Prod.mk.inj h
    subst hc'
    exact ⟨hdom, Or.inl rfl⟩

theorem swapPhase_inDomain (iter : ℕ) (st : PTState) (r : RngState)
    (hdom : ∀ c ∈ st.chains, InDomain c.current) :
    ∀ c' ∈ ((swapPhase iter st r).1).chains, InDomain c'.current := by
  intro c' hc'
  simp only [swapPhase] at hc'
  split at hc'
  case isFalse => exact hdom c' hc'
  case isTrue hcond =>
    split at hc'
    case isFalse => exact hdom c' hc'
    case isTrue hacc =>
      simp only at hc'
      set i := intRange (st.chains.length - 2) r with hi
      have hiK : i + 1 < st.chains.length := by
        have := intRange_le (st.chains.length - 2) r
        omega
      have hmemi : st.chains.getD i default ∈ st.chains := by
        rw [List.getD_eq_getElem st.chains default (by omega)]
        exact List.getElem_mem _
      have hmemj : st.chains.getD (i + 1) default ∈ st.chains := by
        rw [List.getD_eq_getElem st.chains default hiK]
        exact List.getElem_mem _
      rcases List.mem_or_eq_of_mem_set hc' with hc2 | rfl
      · rcases List.mem_or_eq_of_mem_set hc2 with hc3 | rfl
        · exact hdom c' hc3
        · have h1 := hdom _ hmemj
          exact h1
      · have h1 := hdom _ hmemi
        exact h1

/-- C3: the domain invariant holds through construction, stepping, and
swapping.  (1) Every chain built by the constructor starts with
`floor, ceiling ∈ (0,1)` and `slope > 0` (`ec50`, a real, is finite).
(2) A step from an in-domain state yields an in-domain state, and whenever
the step changes the current state the newly cached tempered log-posterior is
finite — a proposal with non-finite tempered log-posterior is rejected by
the Metropolis comparison and the previous state is retained.  (3) A swap
only exchanges current states between chains, preserving the invariant. -/
theorem c3_domain_invariant :
    (∀ (K : ℕ) (d : Data) (pr : Priors) (r : RngState),
      ∀ c ∈ ((construct K d pr r).1).chains, InDomain c.current) ∧
    (∀ (d : Data) (pr : Priors) (c : MCMCChainState) (r : RngState)
        (c' : MCMCChainState) (r' : RngState),
      InDomain c.current → stepChain d pr c r = some (c', r') →
      InDomain c'.current ∧
        (c'.current = c.current ∨ c'.current_log_posterior ≠ none)) ∧
    (∀ (iter : ℕ) (st : PTState) (r : RngState),
      (∀ c ∈ st.chains, InDomain c.current) →
      ∀ c' ∈ ((swapPhase iter st r).1).chains, InDomain c'.current) := by
  refine ⟨?_, ?_, ?_⟩
  · intro K d pr r c hc
    exact constructChains_inDomain d pr (temperaturesList K) r c hc
  · intro d pr c r c' r' hdom h
    exact stepChain_preserves d pr c r c' r' hdom h
  · intro iter st r hdom c' hc'
    exact swapPhase_inDomain iter st r hdom c' hc'

/-- C3, witness: the invariant theorem applied to a concrete one-chain
ensemble at iteration 1 (no swap is due, so the state is preserved). -/
theorem c3_domain_invariant_witness :
    InDomain (((swapPhase 1 witnessPT (mkRng 0)).1).chains.headI).current := by
  have hswap : swapPhase 1 witnessPT (mkRng 0) = (witnessPT, mkRng 0) := by
    rw [swapPhase, if_neg (by norm_num)]
  have hdom : ∀ c ∈ witnessPT.chains, InDomain c.current := by
    intro c hc
    simp only [witnessPT, List.mem_singleton] at hc
    subst hc
    exact ⟨by norm_num [witnessChain], by norm_num [witnessChain],
      by norm_num [witnessChain], by norm_num [witnessChain],
      by norm_num [witnessChain]⟩
  refine c3_domain_invariant.2.2 1 witnessPT (mkRng 0) hdom _ ?_
  rw [hswap]
  simp [witnessPT]

/-- C6: the swap move.  On an iteration with `iter % 10 = 0` and more than
one chain, exactly one swap is attempted: the drawn pair `(i, i+1)` is
adjacent and in range; acceptance compares `log U` with
`(logpi_i - logpi_j) * (1/T_j - 1/T_i)` computed from the cached tempered
log-posteriors and the ladder temperatures; on acceptance the two chains'
states are exchanged with both cached log-posteriors recomputed at the
chains' own temperatures (`setCurrent`), and `swap_accepted` is incremented;
`swap_total` is incremented on every attempt. -/
theorem c6_swap_move (iter : ℕ) (st : PTState) (r : RngState) (i : ℕ)
    (h10 : iter % 10 = 0) (hK : 1 < st.chains.length)
    (hi : i = intRange (st.chains.length - 2) r)
    (li lj ti tj : ℝ)
    (hli : (st.chains.getD i default).current_log_posterior = some li)
    (hlj : (st.chains.getD (i + 1) default).current_log_posterior = some lj)
    (hti : st.temperatures.getD i none = some ti)
    (htj : st.temperatures.getD (i + 1) none = some tj) :
    i + 1 < st.chains.length ∧
    swapPhase iter st r =
      (if Real.log (uniformVal (nextRng r)) < (li - lj) * (1 / tj - 1 / ti)
       then
        ({ st with
            chains := (st.chains.set i
                (setCurrent (st.chains.getD i default)
                  ((st.chains.getD (i + 1) default).current)
                  st.data st.priors)).set (i + 1)
                (setCurrent (st.chains.getD (i + 1) default)
                  ((st.chains.getD i default).current) st.data st.priors)
            swap_total := st.swap_total + 1
            swap_accepted := st.swap_accepted + 1 }, nextRng (nextRng r))
       else ({ st with swap_total := st.swap_total + 1 }, nextRng (nextRng r))) := by
  have hbound := intRange_le (st.chains.length - 2) r
  have hik : i + 1 < st.chains.length := by omega
  refine ⟨hik, ?_⟩
  simp only [swapPhase, if_pos (And.intro h10 hK)]
  rw [← hi, hli, hlj, hti, htj]
  simp only [swapAccept]
  have hset : ((st.chains.set i
      (setCurrent (st.chains.getD i default)
        ((st.chains.getD (i + 1) default).current) st.data
        st.priors)).getD (i + 1) default) = st.chains.getD (i + 1) default := by
    simp [List.getD_eq_getElem?_getD, List.getElem?_set_ne (show i ≠ i + 1 by omega)]
  rw [hset]

/-- C6, witness: the swap-move theorem at iteration 0 on the concrete
two-chain ensemble (drawn pair `(0, 1)`, cached log-posteriors `0` and `-1`,
temperatures `1` and `10`). -/
theorem c6_swap_move_witness :
    0 + 1 < witnessPT2.chains.length ∧
    swapPhase 0 witnessPT2 (mkRng 0) =
      (if Real.log (uniformVal (nextRng (mkRng 0)))
          < ((0 : ℝ) - (-1)) * (1 / 10 - 1 / 1)
       then
        ({ witnessPT2 with
            chains := (witnessPT2.chains.set 0
                (setCurrent (witnessPT2.chains.getD 0 default)
                  ((witnessPT2.chains.getD 1 default).current)
                  witnessPT2.data witnessPT2.priors)).set 1
                (setCurrent (witnessPT2.chains.getD 1 default)
                  ((witnessPT2.chains.getD 0 default).current)
                  witnessPT2.data witnessPT2.priors)
            swap_total := witnessPT2.swap_total + 1
            swap_accepted := witnessPT2.swap_accepted + 1 },
          nextRng (nextRng (mkRng 0)))
       else ({ witnessPT2 with swap_total := witnessPT2.swap_total + 1 },
          nextRng (nextRng (mkRng 0)))) := by
  refine c6_swap_move 0 witnessPT2 (mkRng 0) 0 rfl ?_ ?_ 0 (-1) 1 10 ?_ ?_ ?_ ?_
  · norm_num [witnessPT2]
  · norm_num [witnessPT2, intRange, hashVal, mkRng]
  · rfl
  · rfl
  · rfl
  · rfl

theorem countSwaps_eq : ∀ (n iter : ℕ),
    countSwaps iter n = (iter + n + 9) / 10 - (iter + 9) / 10 := by
  intro n
  induction n with
  | zero => intro iter; simp [countSwaps]
  | succ n ih =>
    intro iter
    rw [countSwaps, ih (iter + 1)]
    by_cases h : iter % 10 = 0 <;> simp [h] <;> omega

theorem stepChainsList_length (d : Data) (pr : Priors) :
    ∀ (cs : List MCMCChainState) (r : RngState) (cs' : List MCMCChainState)
      (r' : RngState), stepChainsList d pr cs r = some (cs', r') →
      cs'.length = cs.length := by
  intro cs
  induction cs with
  | nil =>
    intro r cs' r' h
    simp only [stepChainsList, Option.some_inj] at h
    obtain ⟨h1, -⟩ := Prod.mk.inj h
    rw [← h1]
  | cons c cs ih =>
    intro r cs' r' h
    simp only [stepChainsList] at h
    split at h
    · exact absurd h (by simp)
    rename_i c1 r1 hc1
    split at h
    · exact absurd h (by simp)
    rename_i cs1 r2 hcs1
    rw [Option.some_inj] at h
    obtain ⟨h1, -⟩ := Prod.mk.inj h
    rw [← h1, List.length_cons, List.length_cons, ih _ _ _ hcs1]

theorem swapPhase_effects (iter : ℕ) (st : PTState) (r : RngState) :
    ((swapPhase iter st r).1).swap_total = st.swap_total +
      (if iter % 10 = 0 ∧ 1 < st.chains.length then 1 else 0) ∧
    ((swapPhase iter st r).1).chains.length = st.chains.length := by
  simp only [swapPhase]
  split
  case isTrue hcond =>
    split
    · exact ⟨by simp [hcond], by simp [List.length_set]⟩
    · exact ⟨by simp [hcond], by simp⟩
  case isFalse hcond =>
    exact ⟨by simp [hcond], rfl⟩

theorem runIter_effects (iter : ℕ) (st : PTState) (r : RngState)
    (st' : PTState) (r' : RngState) (h : runIter iter st r = some (st', r')) :
    st'.swap_total = st.swap_total +
      (if iter % 10 = 0 ∧ 1 < st.chains.length then 1 else 0) ∧
    st'.chains.length = st.chains.length := by
  simp only [runIter] at h
  split at h
  · exact absurd h (by simp)
  rename_i chs r2 hstep
  rw [Option.some_inj] at h
  have hlen : chs.length = st.chains.length :=
    stepChainsList_length st.data st.priors st.chains r chs r2 hstep
  have heff := swapPhase_effects iter { st with chains := chs } r2
  rw [h] at heff
  constructor
  · rw [heff.1]
    simp only [hlen]
  · rw [heff.2]
    simp only [hlen]

theorem runFrom_effects : ∀ (n iter : ℕ) (s out : PTState × RngState),
    runFrom iter n s = some out →
    out.1.swap_total = s.1.swap_total +
      (if 1 < s.1.chains.length then countSwaps iter n else 0) ∧
    out.1.chains.length = s.1.chains.length := by
  intro n
  induction n with
  | zero =>
    intro iter s out h
    simp only [runFrom, Option.some_inj] at h
    rw [← h]
    simp [countSwaps]
  | succ n ih =>
    intro iter s out h
    simp only [runFrom] at h
    split at h
    · exact absurd h (by simp)
    rename_i s1 hiter
    obtain ⟨heff1, heff2⟩ := runIter_effects iter s.1 s.2 s1.1 s1.2
      (by rw [hiter])
    obtain ⟨hout1, hout2⟩ := ih (iter + 1) s1 out h
    constructor
    · rw [hout1, heff1, countSwaps, heff2]
      by_cases hK : 1 < s.1.chains.length
      · by_cases h10 : iter % 10 = 0 <;> (simp [hK, h10] <;> omega)
      · simp [hK]
    · rw [hout2, heff2]

/-- C10: the swap cadence is relative to each `run` call.  Any call
`run(n)` on an ensemble with more than one chain attempts exactly
`(n + 9) / 10` swaps — one at every in-call iteration index divisible by 10,
starting with index 0 — and two consecutive calls `run(a); run(b)` attempt
`(a+9)/10 + (b+9)/10` swaps, which differs from the `(a+b+9)/10` attempts of
a single `run(a+b)` (e.g. `a = b = 5`: 2 versus 1). -/
theorem c10_per_call_swap_cadence :
    (∀ (n : ℕ) (s out : PTState × RngState), runPT n s = some out →
      out.1.swap_total = s.1.swap_total +
        (if 1 < s.1.chains.length then (n + 9) / 10 else 0)) ∧
    (∀ (a b : ℕ) (s s1 out : PTState × RngState),
      runPT a s = some s1 → runPT b s1 = some out →
      out.1.swap_total = s.1.swap_total +
        (if 1 < s.1.chains.length then (a + 9) / 10 + (b + 9) / 10 else 0)) := by
  have hcnt : ∀ n : ℕ, countSwaps 0 n = (n + 9) / 10 := by
    intro n
    rw [countSwaps_eq]
    omega
  have hmain : ∀ (n : ℕ) (s out : PTState × RngState), runPT n s = some out →
      out.1.swap_total = s.1.swap_total +
        (if 1 < s.1.chains.length then (n + 9) / 10 else 0) := by
    intro n s out h
    have := (runFrom_effects n 0 s out h).1
    rw [hcnt] at this
    exact this
  refine ⟨hmain, ?_⟩
  intro a b s s1 out ha hb
  have h1 := hmain a s s1 ha
  have h2 := hmain b s1 out hb
  have hlen : s1.1.chains.length = s.1.chains.length :=
    (runFrom_effects a 0 s s1 ha).2
  rw [h2, hlen, h1]
  by_cases hK : 1 < s.1.chains.length <;> (simp [hK] <;> omega)

/-- C10, witness: `run(5)` on the zero-chain ensemble succeeds and the swap
counter moves by the cadence formula (here zero, as `K ≤ 1`). -/
theorem c10_per_call_swap_cadence_witness :
    runPT 5 (emptyPT, mkRng 0) = some (emptyPT, mkRng 0) ∧
    emptyPT.swap_total = emptyPT.swap_total +
      (if 1 < emptyPT.chains.length then (5 + 9) / 10 else 0) := by
  have hrun : runPT 5 (emptyPT, mkRng 0) = some (emptyPT, mkRng 0) := by
    show runFrom 0 5 (emptyPT, mkRng 0) = some (emptyPT, mkRng 0)
    simp [runFrom, runIter, stepChainsList, swapPhase, emptyPT]
  exact ⟨hrun,
    c10_per_call_swap_cadence.1 5 (emptyPT, mkRng 0) (emptyPT, mkRng 0) hrun⟩

/-- C7, amended: `compute_rhat` computes exactly the split R-hat of spec
§4.5 — halves of sizes `h = ⌊n/2⌋` and `n - h`, per-half means and sample
variances, `W`, `B = h·((μ1-μ)² + (μ2-μ)²)`, `V̂ = ((h-1)/h)·W + (1/h)·B`,
result `√(V̂/W)` — with the single amendment the counterexample forces: each
half's sample variance is divided by that half's own length minus one
(`h - 1` for the first half but `n - h - 1` for the second), which agrees
with the claim exactly when `n` is even and differs at odd `n`. -/
theorem c7_split_rhat (trace : List Params) (w : ℕ) :
    compute_rhat trace w = compute_rhat_spec trace w :=
  compute_rhat_eq_spec trace w

end SeroCOP
